import Mathlib

/-!
Shallow embedding of the plauncher launcher (Go) for specification checking.

Go strings are modelled as Lean `String` (or `List Char` where byte-level
scanning matters), Go `map[string]string` values as association lists with
map-update insertion semantics, and Go slices as Lean lists.  Host-dependent
facts (binary discovered on the search path, environment variable present,
a path statting as an existing directory) are passed in as explicit
parameters.  `log.Fatal` calls are modelled as `Except.error` results.
-/

/-- Association-list lookup, first match wins (Go map read). -/
def envLookup (e : List (String × String)) (k : String) : Option String :=
  match e with
  | [] => none
  | kv :: rest => if kv.1 = k then some kv.2 else envLookup rest k

/-- Association-list update (Go map write): drop old bindings of the key and
bind it at the end.  Extensionally this is exactly Go's `m[k] = v`. -/
def envInsert (e : List (String × String)) (k v : String) : List (String × String) :=
  (e.filter (fun kv => kv.1 ≠ k)) ++ [(k, v)]

/-- Keys of an association list. -/
def keysOf (e : List (String × String)) : List String :=
  e.map (fun kv => kv.1)

/-- Folding a list of bindings into an environment, left to right
(the Go loop `for key, value := range override.Environment`). -/
def envMerge (e : List (String × String)) (kvs : List (String × String)) :
    List (String × String) :=
  kvs.foldl (fun acc kv => envInsert acc kv.1 kv.2) e

/-- Set insertion for Go's `map[string]bool` used as a set
(`specialFlags[arg] = true`). -/
def flagsInsert (f : List String) (arg : String) : List String :=
  if arg ∈ f then f else f ++ [arg]

/-- Go `strings.Split` on a single separator character, over `List Char`:
splitting never drops separators, and an empty input yields one empty field. -/
def splitOnCharAux (sep : Char) : List Char → List Char → List (List Char)
  | [], acc => [acc.reverse]
  | ch :: rest, acc =>
    if ch = sep then acc.reverse :: splitOnCharAux sep rest []
    else splitOnCharAux sep rest (ch :: acc)

/-- Go `strings.Split(s, sep)` for a one-character separator. -/
def splitOnChar (sep : Char) (s : List Char) : List (List Char) :=
  splitOnCharAux sep s []

/-- Go `strings.Split(arg, " ")` producing `String` tokens. -/
def splitArgOnSpaces (s : String) : List String :=
  (splitOnChar ' ' s.data).map (fun l => String.mk l)

/-- Go `filepath.Join` restricted to the two-component uses in this program. -/
def pathJoin (a b : String) : String :=
  a ++ "/" ++ b

/-- wine configuration section (field `alsa`). -/
structure WineConfiguration where
  alsa : Bool
deriving DecidableEq, Repr

/-- mangohud configuration section. -/
structure MangohudConfiguration where
  enabled : Bool
deriving DecidableEq, Repr

/-- gamemode configuration section. -/
structure GamemodeConfiguration where
  enabled : Bool
deriving DecidableEq, Repr

/-- gamescope configuration section. -/
structure GamescopeConfiguration where
  enabled : Bool
  hdr : Bool
  args : List String
deriving DecidableEq, Repr

/-- eos-overlay configuration section. -/
structure EosConfiguration where
  enabled : Bool
deriving DecidableEq, Repr

/-- umu configuration section. -/
structure UmuConfiguration where
  enabled : Bool
  proton : String
  gameId : String
  store : String
  args : List String
deriving DecidableEq, Repr

/-- The launcher's `Configuration` record: persisted sections plus the two
runtime-only maps `specialFlags` and `props`. -/
structure Configuration where
  environment : List (String × String)
  wine : WineConfiguration
  mangohud : MangohudConfiguration
  gamemode : GamemodeConfiguration
  gamescope : GamescopeConfiguration
  eosOverlay : EosConfiguration
  umu : UmuConfiguration
  preScripts : List String
  postScripts : List String
  specialFlags : List String
  props : List (String × String)
deriving DecidableEq, Repr

def GAMESCOPE_HDR_ARGV : String := "--hdr-enabled"

/-- Go `parseDoubleDashParam`: a long flag body; with an `=` it becomes a
property (`props[parts[0]] = parts[1]`), without one a special flag. -/
def parseDoubleDashParam (c : Configuration) (arg : List Char) : Configuration :=
  if '=' ∈ arg then
    let parts := splitOnChar '=' arg
    { c with props := envInsert c.props (String.mk (parts.getD 0 [])) (String.mk (parts.getD 1 [])) }
  else
    { c with specialFlags := flagsInsert c.specialFlags (String.mk arg) }

/-- Go `parseBooleanDashParam` body for a single character. -/
def parseBooleanDashChar (c : Configuration) (ch : Char) (value : Bool) : Configuration :=
  if ch = 'G' then { c with gamescope := { c.gamescope with enabled := value } }
  else if ch = 'g' then { c with gamemode := { c.gamemode with enabled := value } }
  else if ch = 'h' then { c with gamescope := { c.gamescope with hdr := value } }
  else if ch = 'm' then { c with mangohud := { c.mangohud with enabled := value } }
  else if ch = 'e' then { c with eosOverlay := { c.eosOverlay with enabled := value } }
  else c

/-- Go `parseBooleanDashParam`: each character of the batch toggles one
boolean; unrecognized characters are ignored. -/
def parseBooleanDashParam (c : Configuration) (arg : List Char) (value : Bool) : Configuration :=
  arg.foldl (fun acc ch => parseBooleanDashChar acc ch value) c

/-- Loop body of Go `enrichConfigurationWithArgvFlags`: walk the argument
vector with its index, skipping index 0, consuming flag-shaped arguments and
stopping at the first non-flag argument. -/
def argvLoop (c : Configuration) : List String → Nat → Except String (Nat × Configuration)
  | [], _ => Except.error "Could not find command in args"
  | a :: rest, i =>
    if i = 0 then argvLoop c rest (i + 1)
    else if a.startsWith "--" then
      argvLoop (parseDoubleDashParam c (a.data.drop 2)) rest (i + 1)
    else if a.startsWith "-!" then
      argvLoop (parseBooleanDashParam c (a.data.drop 2) false) rest (i + 1)
    else if a.startsWith "-" then
      argvLoop (parseBooleanDashParam c (a.data.drop 1) true) rest (i + 1)
    else Except.ok (i, c)

/-- Go `enrichConfigurationWithArgvFlags` over the full argument vector
(`args` includes the program name at index 0). -/
def enrichConfigurationWithArgvFlags (c : Configuration) (args : List String) :
    Except String (Nat × Configuration) :=
  argvLoop c args 0

/-- An argument matching one of the three flag shapes recognized by the loop. -/
def isFlagArg (s : String) : Bool :=
  s.startsWith "--" || s.startsWith "-!" || s.startsWith "-"

/-- Deduplicating list union of Go `applyConfigOverrides`: append each
override element not already present in the accumulated list. -/
def listUnion (base : List String) (xs : List String) : List String :=
  xs.foldl (fun acc a => if a ∈ acc then acc else acc ++ [a]) base

/-- Go `applyConfigOverrides`: booleans always overwritten, scalar strings
overwritten when the override value is non-empty, environment merged
key-by-key, list fields unioned with deduplication.  The runtime-only maps
are untouched. -/
def applyConfigOverrides (c : Configuration) (o : Configuration) : Configuration :=
  { environment := envMerge c.environment o.environment
    wine := { alsa := o.wine.alsa }
    mangohud := { enabled := o.mangohud.enabled }
    gamemode := { enabled := o.gamemode.enabled }
    gamescope := { enabled := o.gamescope.enabled
                   hdr := o.gamescope.hdr
                   args := listUnion c.gamescope.args o.gamescope.args }
    eosOverlay := { enabled := o.eosOverlay.enabled }
    umu := { enabled := o.umu.enabled
             proton := if o.umu.proton ≠ "" then o.umu.proton else c.umu.proton
             gameId := if o.umu.gameId ≠ "" then o.umu.gameId else c.umu.gameId
             store := if o.umu.store ≠ "" then o.umu.store else c.umu.store
             args := listUnion c.umu.args o.umu.args }
    preScripts := listUnion c.preScripts o.preScripts
    postScripts := listUnion c.postScripts o.postScripts
    specialFlags := c.specialFlags
    props := c.props }

/-- Go `enrichCommandWithGamescope`.  `gamescopeBin` is the result of probing
the host search path for the compositor binary (`checkIfBinExists`). -/
def enrichCommandWithGamescope (currentCommand : List String) (c : Configuration)
    (gamescopeBin : Option String) : List String × Configuration :=
  match gamescopeBin with
  | none => (currentCommand, c)
  | some cmd =>
    if c.gamescope.enabled then
      let newCmd := currentCommand ++ [cmd]
      let c1 :=
        if c.gamescope.hdr then
          if GAMESCOPE_HDR_ARGV ∈ c.gamescope.args then c
          else
            { c with
              gamescope := { c.gamescope with args := c.gamescope.args ++ [GAMESCOPE_HDR_ARGV] }
              environment :=
                envInsert (envInsert c.environment "DXVK_HDR" "1") "ENABLE_HDR_WSI" "1" }
        else c
      let newCmd2 := c1.gamescope.args.foldl (fun acc arg => acc ++ splitArgOnSpaces arg) newCmd
      (newCmd2 ++ ["--"], c1)
    else (currentCommand, c)

def nameErrMsg : String := "Games outside steam need a name. Set with --name=$val"

def protonErrMsg : String := "Specified proton path is does not exist or is not a directory"

/-- First GAMEID write of the umu stage: if an `id` property is present and
non-empty, bind GAMEID to it. -/
def umuEnv1 (c : Configuration) : List (String × String) :=
  match envLookup c.props "id" with
  | some id => if id ≠ "" then envInsert c.environment "GAMEID" id else c.environment
  | none => c.environment

/-- Second GAMEID write of the umu stage: if GAMEID is still absent or
empty, bind it to the resolved name. -/
def umuEnv2 (c : Configuration) (name : String) : List (String × String) :=
  match envLookup (umuEnv1 c) "GAMEID" with
  | none => envInsert (umuEnv1 c) "GAMEID" name
  | some id => if id = "" then envInsert (umuEnv1 c) "GAMEID" name else umuEnv1 c

/-- Remaining environment writes of the umu stage, in source order:
WINEPREFIX, the GAMEID override from the configured game-id (when
non-empty), PROTONPATH and STORE. -/
def umuEnv (c : Configuration) (name : String) (compatDataBase : String) :
    List (String × String) :=
  envInsert
    (envInsert
      (if c.umu.gameId ≠ "" then
        envInsert (envInsert (umuEnv2 c name) "WINEPREFIX" (pathJoin compatDataBase name))
          "GAMEID" c.umu.gameId
      else envInsert (umuEnv2 c name) "WINEPREFIX" (pathJoin compatDataBase name))
      "PROTONPATH" c.umu.proton)
    "STORE" c.umu.store

/-- Go `enrichCommandWithUmu`.  `umuBin` models the search-path probe for the
runner binary, `steamCompatSet` whether `STEAM_COMPAT_DATA_PATH` is present in
the process environment, and `protonValid` whether `os.Stat` on the configured
proton path finds an existing directory.  `log.Fatalln` is `Except.error`. -/
def enrichCommandWithUmu (currentCommand : List String) (c : Configuration)
    (compatDataBase : String) (umuBin : Option String) (steamCompatSet : Bool)
    (protonValid : Bool) : Except String (List String × Configuration) :=
  match umuBin with
  | none => Except.ok (currentCommand, c)
  | some bin =>
    if steamCompatSet = false ∧ c.umu.enabled = true then
      match envLookup c.props "name" with
      | none => Except.error nameErrMsg
      | some name =>
        if protonValid = false then Except.error protonErrMsg
        else
          let c6 := { c with environment := umuEnv c name compatDataBase }
          Except.ok (currentCommand ++ [bin] ++ c6.umu.args, c6)
    else Except.ok (currentCommand, c)

/-- Backward scan of Go `ReadLastLine`: fuel `n` means the next read is at
byte offset `n - 1`; fuel `0` is the `ReadAt` failure at offset `-1`, on which
the Go code returns the empty string (discarding the accumulated line). -/
def ReadLastLineAux (content : List Char) : Nat → List Char → Bool → List Char
  | 0, _, _ => []
  | n + 1, lastLine, firstByte =>
    match content.get? n with
    | none => []
    | some ch =>
      if ch = '\n' then
        if firstByte then ReadLastLineAux content n lastLine false
        else lastLine
      else ReadLastLineAux content n (ch :: lastLine) firstByte

/-- Go `ReadLastLine` on a file whose byte content is `content`: scan backward
from end-of-file, skipping one trailing newline, accumulating characters until
a newline or a read failure. -/
def ReadLastLine (content : List Char) : List Char :=
  ReadLastLineAux content content.length [] true

/-- A filesystem entry as seen by the migration code: a regular file with
permission bits and content, a symlink, or a directory with named entries. -/
inductive FsEntry where
  | file (perm : Nat) (content : List Nat) : FsEntry
  | symlink (target : String) : FsEntry
  | dir (perm : Nat) (entries : List (String × FsEntry)) : FsEntry

/-- The entry loop of Go `CopyDir`: directories are copied recursively,
regular files are copied preserving permission bits, symlinked entries are
skipped. -/
def copyEntries : List (String × FsEntry) → List (String × FsEntry)
  | [] => []
  | (n, FsEntry.file p cts) :: rest => (n, FsEntry.file p cts) :: copyEntries rest
  | (_, FsEntry.symlink _) :: rest => copyEntries rest
  | (n, FsEntry.dir p es) :: rest => (n, FsEntry.dir p (copyEntries es)) :: copyEntries rest

/-- Go `CopyDir src dst` under its preconditions already checked by the
caller branch (source is a directory, destination absent): the resulting
destination tree. -/
def CopyDir (src : FsEntry) : Except String FsEntry :=
  match src with
  | FsEntry.dir p es => Except.ok (FsEntry.dir p (copyEntries es))
  | _ => Except.error "source is not a directory"

/-- Go `configureNewSteamCompatData` tree-state core: given what `os.Lstat`
finds at the legacy path and what `os.Stat` finds at the new path, return the
resulting (legacy, new) entries.  Branch one copies the legacy tree (via
`CopyDir`), deletes the legacy directory and symlinks it to the new path;
branch two deletes the legacy directory keeping the new tree; the fallback
removes whatever sits at the legacy path.  All branches leave a symlink to
the new path at the legacy location. -/
def configureNewSteamCompatData (oldEntry : Option FsEntry) (newEntry : Option FsEntry)
    (newPath : String) : Option FsEntry × Option FsEntry :=
  match oldEntry, newEntry with
  | some (FsEntry.dir p es), none =>
    (some (FsEntry.symlink newPath), some (FsEntry.dir p (copyEntries es)))
  | some (FsEntry.dir _ _), some ne =>
    (some (FsEntry.symlink newPath), some ne)
  | _, ne => (some (FsEntry.symlink newPath), ne)

/-- First entry of a directory listing with the given name. -/
def lookupEntry : List (String × FsEntry) → String → Option FsEntry
  | [], _ => none
  | (n, e) :: rest, name => if n = name then some e else lookupEntry rest name

/-- Find a regular (non-symlink) file at a relative path inside a directory
listing, returning its permission bits and content. -/
def findFile : List (String × FsEntry) → List String → Option (Nat × List Nat)
  | _, [] => none
  | es, [n] =>
    match lookupEntry es n with
    | some (FsEntry.file p cts) => some (p, cts)
    | _ => none
  | es, n :: rest =>
    match lookupEntry es n with
    | some (FsEntry.dir _ es2) => findFile es2 rest
    | _ => none

/-- The `defaultConfiguration` literal from `main`. -/
def defaultConfiguration : Configuration :=
  { environment := []
    wine := { alsa := true }
    mangohud := { enabled := false }
    gamemode := { enabled := true }
    gamescope := { enabled := false, hdr := false, args := [] }
    eosOverlay := { enabled := false }
    umu := { enabled := false, proton := "", gameId := "", store := "", args := [] }
    preScripts := []
    postScripts := []
    specialFlags := []
    props := [] }

/-- The GAMEID value the umu stage falls back to when neither a non-empty
configured game-id override nor a non-empty id property decides it: a
pre-existing non-empty GAMEID environment entry, else the resolved name. -/
def gameIdFallback (c : Configuration) (name : String) : String :=
  match envLookup c.environment "GAMEID" with
  | some g => if g = "" then name else g
  | none => name

/-- The GAMEID decided by the id property and fallback alone: a present
non-empty id property wins, else `gameIdFallback`. -/
def gameIdFromProps (c : Configuration) (name : String) : String :=
  match envLookup c.props "id" with
  | some id => if id ≠ "" then id else gameIdFallback c name
  | none => gameIdFallback c name

/-- The GAMEID value the umu stage actually injects, read off the source:
the configured game-id override wins when non-empty (it is written last),
then a present non-empty id property, then `gameIdFallback`. -/
def expectedGameId (c : Configuration) (name : String) : String :=
  if c.umu.gameId ≠ "" then c.umu.gameId
  else gameIdFromProps c name

/-- Predicate used to describe `envMerge`: the binding's key is absent from
the merged-in binding list. -/
def keyAbsent (kvs : List (String × String)) (kv : String × String) : Bool :=
  !((keysOf kvs).contains kv.1)

/-- Projection of a umu-stage result onto the injected GAMEID entry:
`none` when the stage ended fatally. -/
def umuGameIdOf (r : Except String (List String × Configuration)) : Option (Option String) :=
  match r with
  | Except.ok p => some (envLookup p.2.environment "GAMEID")
  | Except.error _ => none

/-- Scenario configuration of the compositor command-assembly claim:
compositor enabled, HDR enabled, single extra argument `--foo`. -/
def gamescopeScenarioConfig : Configuration :=
  { defaultConfiguration with
    gamescope := { enabled := true, hdr := true, args := ["--foo"] } }

/-- Configuration refuting the claimed GAMEID precedence: an id property
`"a"` is present and non-empty while the configured override is `"b"`. -/
def umuPrecedenceConfig : Configuration :=
  { defaultConfiguration with
    umu := { enabled := true, proton := "/proton", gameId := "b", store := "gog", args := [] }
    props := [("id", "a"), ("name", "n")] }

/-- Configuration with a present but empty resolved name for the umu stage. -/
def umuEmptyNameConfig : Configuration :=
  { defaultConfiguration with
    umu := { enabled := true, proton := "/proton", gameId := "", store := "", args := [] }
    props := [("name", "")] }

/-- Configuration with no resolved name at all for the umu stage. -/
def umuNoNameConfig : Configuration :=
  { defaultConfiguration with
    umu := { enabled := true, proton := "/proton", gameId := "", store := "", args := [] } }

/-- Base configuration of the merge witness: two environment entries. -/
def mergeBaseConfig : Configuration :=
  { defaultConfiguration with environment := [("A", "base0"), ("B", "base")] }

/-- Override configuration of the merge witness: overrides the entry `A`. -/
def mergeOverrideConfig : Configuration :=
  { defaultConfiguration with environment := [("A", "ov")] }

/-- A small legacy compatibility-data tree used to witness the migration
claim: a profile directory with a regular file and a symlinked entry, plus a
top-level file. -/
def demoCompatTree : List (String × FsEntry) :=
  [("pfx", FsEntry.dir 493 [("user.reg", FsEntry.file 420 [1, 2, 3]),
                            ("dosdevices", FsEntry.symlink "/dev")]),
   ("version", FsEntry.file 420 [9])]

/-! ## Splitting lemmas -/

theorem splitOnCharAux_sep_free (sep : Char) (rest : List Char) :
    ∀ (k acc : List Char), sep ∉ k →
      splitOnCharAux sep (k ++ sep :: rest) acc =
        (acc.reverse ++ k) :: splitOnCharAux sep rest [] := by
  intro k
  induction k with
  | nil =>
    intro acc _
    simp [splitOnCharAux]
  | cons ch k ih =>
    intro acc h
    have hch : ¬ ch = sep := by
      intro hc
      exact h (hc ▸ List.mem_cons_self ch k)
    have hk : sep ∉ k := fun hm => h (List.mem_cons_of_mem ch hm)
    simp only [List.cons_append, splitOnCharAux, if_neg hch, List.append_eq]
    rw [ih (ch :: acc) hk]
    simp

theorem splitOnChar_sep_free (sep : Char) (k rest : List Char) (h : sep ∉ k) :
    splitOnChar sep (k ++ sep :: rest) = k :: splitOnChar sep rest := by
  simpa [splitOnChar] using splitOnCharAux_sep_free sep rest k [] h

/-- Claim C10: a long flag `--key=value` whose value contains a further `=`
stores only the text between the first and the second `=` as the property
value; everything from the second `=` onward is discarded. -/
theorem claim10_second_eq_discarded (c : Configuration) (k v1 v2 : List Char)
    (hk : '=' ∉ k) (hv : '=' ∉ v1) :
    parseDoubleDashParam c (k ++ '=' :: (v1 ++ '=' :: v2)) =
      { c with props := envInsert c.props (String.mk k) (String.mk v1) } := by
  have hmem : '=' ∈ k ++ '=' :: (v1 ++ '=' :: v2) := by simp
  have hsplit : splitOnChar '=' (k ++ '=' :: (v1 ++ '=' :: v2)) =
      k :: v1 :: splitOnChar '=' v2 := by
    rw [splitOnChar_sep_free '=' k (v1 ++ '=' :: v2) hk,
        splitOnChar_sep_free '=' v1 v2 hv]
  simp [parseDoubleDashParam, hmem, hsplit]

/-- Witness for C10 at the concrete flag body `a=b=c`. -/
theorem claim10_witness :
    ('=' ∉ "a".data) ∧ ('=' ∉ "b".data) ∧
      parseDoubleDashParam defaultConfiguration ("a".data ++ '=' :: ("b".data ++ '=' :: "c".data)) =
        { defaultConfiguration with
          props := envInsert defaultConfiguration.props (String.mk "a".data) (String.mk "b".data) } :=
  ⟨by decide, by decide,
    claim10_second_eq_discarded defaultConfiguration "a".data "b".data "c".data
      (by decide) (by decide)⟩

/-- Claim C3 evaluated at a failing input: on the file content `"abc\n"`,
which ends with a trailing newline, `ReadLastLine` returns the empty string
rather than the line `"abc"` before the trailing newline — the backward scan
runs past the start of the file into the read-error branch, which discards
the accumulated line. -/
theorem claim3_failing_eval :
    ReadLastLine "abc\n".data = [] ∧ "abc".data ≠ [] := by
  constructor
  · decide
  · decide

/-! ## Compositor stage (claim C1) -/

/-- Amended claim C1: in the compositor scenario (feature enabled, HDR
enabled, single extra argument `--foo`, binary present) the assembled
command is, in order: the compositor binary path, `--foo`, `--hdr-enabled`,
`--`, followed by the original game-launch tokens — the HDR token is
appended after the configured extra arguments, not before them. -/
theorem claim1_order_hdr_after_args (bin : String) (game : List String) :
    (enrichCommandWithGamescope [] gamescopeScenarioConfig (some bin)).1 ++ game =
      bin :: "--foo" :: GAMESCOPE_HDR_ARGV :: "--" :: game := by
  rfl

/-- Counterexample to C1 as stated: with the compositor binary `gamescope`
and game tokens `game.exe`, the assembled command does not contain the
tokens in the claimed order (binary, `--hdr-enabled`, `--foo`, `--`, game
tokens). -/
theorem claim1_counterexample :
    ¬ List.Sublist ["gamescope", GAMESCOPE_HDR_ARGV, "--foo", "--", "game.exe"]
      ((enrichCommandWithGamescope [] gamescopeScenarioConfig (some "gamescope")).1 ++
        ["game.exe"]) := by
  decide

/-! ## Environment association-list lemmas -/

theorem contains_eq_decide_mem (l : List String) (a : String) :
    l.contains a = decide (a ∈ l) := by
  induction l with
  | nil => simp
  | cons x l ih => simp [List.contains_cons, ih]

theorem envMerge_nil (e : List (String × String)) : envMerge e [] = e := rfl

theorem envMerge_cons (e : List (String × String)) (k v : String)
    (kvs : List (String × String)) :
    envMerge e ((k, v) :: kvs) = envMerge (envInsert e k v) kvs := rfl

theorem envMerge_eq_filter_append (kvs : List (String × String)) :
    ∀ e, envMerge e kvs = e.filter (keyAbsent kvs) ++ envMerge [] kvs := by
  induction kvs with
  | nil =>
    intro e
    have : ∀ kv ∈ e, keyAbsent ([] : List (String × String)) kv = true := by
      intro kv _
      simp [keyAbsent, keysOf]
    simp [envMerge_nil, List.filter_eq_self.mpr this]
  | cons p kvs ih =>
    intro e
    obtain ⟨k, v⟩ := p
    rw [envMerge_cons, ih (envInsert e k v), envMerge_cons,
        show envInsert [] k v = [(k, v)] from rfl, ih [(k, v)]]
    rw [envInsert, List.filter_append, List.append_assoc]
    congr 1
    rw [List.filter_filter]
    apply List.filter_congr
    intro kv _
    simp [keyAbsent, keysOf, List.contains_cons, Bool.not_or, Bool.and_comm,
      Bool.beq_eq_decide_eq]

theorem mem_envMerge {kvs : List (String × String)} :
    ∀ {e kv}, kv ∈ envMerge e kvs → kv ∈ e ∨ (keysOf kvs).contains kv.1 = true := by
  induction kvs with
  | nil => intro e kv h; exact Or.inl h
  | cons p kvs ih =>
    intro e kv h
    obtain ⟨k, v⟩ := p
    rw [envMerge_cons] at h
    rcases ih h with h1 | h1
    · rw [envInsert] at h1
      rcases List.mem_append.mp h1 with h2 | h2
      · exact Or.inl (List.mem_of_mem_filter h2)
      · right
        have : kv = (k, v) := by simpa using h2
        subst this
        simp [keysOf, List.contains_cons]
    · right
      rw [contains_eq_decide_mem] at h1 ⊢
      have h2 := of_decide_eq_true h1
      exact decide_eq_true (by simp [keysOf] at h2 ⊢; exact Or.inr h2)

theorem envMerge_idem (e kvs : List (String × String)) :
    envMerge (envMerge e kvs) kvs = envMerge e kvs := by
  rw [envMerge_eq_filter_append kvs (envMerge e kvs), envMerge_eq_filter_append kvs e]
  rw [List.filter_append, List.filter_filter]
  have h1 : List.filter (fun a => keyAbsent kvs a && keyAbsent kvs a) e =
      List.filter (keyAbsent kvs) e :=
    List.filter_congr (fun a _ => Bool.and_self _)
  have h2 : List.filter (keyAbsent kvs) (envMerge [] kvs) = [] := by
    rw [List.filter_eq_nil_iff]
    intro a ha
    rcases mem_envMerge ha with hc | hc
    · cases hc
    · have hm : a.1 ∈ keysOf kvs := by
        rw [contains_eq_decide_mem] at hc
        exact of_decide_eq_true hc
      simp [keyAbsent, hm]
  rw [h1, h2, List.append_nil]

theorem envLookup_append (a b : List (String × String)) (k : String) :
    envLookup (a ++ b) k =
      match envLookup a k with
      | some v => some v
      | none => envLookup b k := by
  induction a with
  | nil => simp [envLookup]
  | cons kv rest ih =>
    by_cases h : kv.1 = k <;> simp [envLookup, h, ih]

theorem envLookup_filter_true {p : String × String → Bool} {k : String}
    (hp : ∀ v, p (k, v) = true) :
    ∀ e : List (String × String), envLookup (e.filter p) k = envLookup e k := by
  intro e
  induction e with
  | nil => rfl
  | cons kv rest ih =>
    by_cases h : kv.1 = k
    · have hkv : kv = (k, kv.2) := by
        cases kv; simp_all
      have hpk : p kv = true := by rw [hkv]; exact hp kv.2
      simp [List.filter_cons, hpk, envLookup, h]
    · cases hpkv : p kv <;> simp [List.filter_cons, hpkv, envLookup, h, ih]

theorem envLookup_filter_false {p : String × String → Bool} {k : String}
    (hp : ∀ v, p (k, v) = false) :
    ∀ e : List (String × String), envLookup (e.filter p) k = none := by
  intro e
  induction e with
  | nil => rfl
  | cons kv rest ih =>
    by_cases h : kv.1 = k
    · have hkv : kv = (k, kv.2) := by
        cases kv; simp_all
      have hpk : p kv = false := by rw [hkv]; exact hp kv.2
      simp [List.filter_cons, hpk, ih]
    · cases hpkv : p kv <;> simp [List.filter_cons, hpkv, envLookup, h, ih]

theorem envLookup_eq_none_iff (e : List (String × String)) (k : String) :
    envLookup e k = none ↔ (keysOf e).contains k = false := by
  induction e with
  | nil => simp [envLookup, keysOf]
  | cons kv rest ih =>
    by_cases h : kv.1 = k <;>
      simp [envLookup, keysOf, h, ih, List.contains_cons, Ne.symm]

theorem envLookup_envInsert_self (e : List (String × String)) (k v : String) :
    envLookup (envInsert e k v) k = some v := by
  rw [envInsert, envLookup_append]
  rw [envLookup_filter_false (fun w => by simp) e]
  simp [envLookup]

theorem envLookup_envInsert_ne (e : List (String × String)) (k v k' : String)
    (h : k' ≠ k) :
    envLookup (envInsert e k v) k' = envLookup e k' := by
  rw [envInsert, envLookup_append]
  rw [envLookup_filter_true (fun w => by simp [h]) e]
  cases hx : envLookup e k' with
  | some w => rfl
  | none => simp [envLookup, Ne.symm h]

theorem envLookup_envMerge_nil {kvs : List (String × String)}
    (h : (keysOf kvs).Nodup) :
    ∀ k, envLookup (envMerge [] kvs) k = envLookup kvs k := by
  induction kvs with
  | nil => intro k; rfl
  | cons p kvs ih =>
    obtain ⟨k0, v0⟩ := p
    have hcons := List.nodup_cons.mp
      (show (k0 :: keysOf kvs).Nodup from by simpa [keysOf] using h)
    have hk0 : k0 ∉ keysOf kvs := hcons.1
    have hnd : (keysOf kvs).Nodup := hcons.2
    intro k
    rw [envMerge_cons, show envInsert [] k0 v0 = [(k0, v0)] from rfl,
        envMerge_eq_filter_append kvs [(k0, v0)]]
    have hkeep : keyAbsent kvs (k0, v0) = true := by
      simp [keyAbsent, contains_eq_decide_mem, hk0]
    rw [show List.filter (keyAbsent kvs) [(k0, v0)] = [(k0, v0)] from by
      simp [List.filter_cons, hkeep]]
    by_cases hk : k0 = k
    · simp [envLookup, hk]
    · simp [envLookup, hk, ih hnd k]

theorem envLookup_envMerge (e kvs : List (String × String)) (k : String)
    (h : (keysOf kvs).Nodup) :
    envLookup (envMerge e kvs) k =
      match envLookup kvs k with
      | some v => some v
      | none => envLookup e k := by
  rw [envMerge_eq_filter_append kvs e, envLookup_append]
  cases hk : envLookup kvs k with
  | some v =>
    have hc : (keysOf kvs).contains k = true := by
      cases hcc : (keysOf kvs).contains k
      · exact absurd hk (by rw [(envLookup_eq_none_iff kvs k).mpr hcc]; simp)
      · rfl
    have hm : k ∈ keysOf kvs := by
      rw [contains_eq_decide_mem] at hc
      exact of_decide_eq_true hc
    rw [envLookup_filter_false (fun w => by simp [keyAbsent, hm]) e]
    rw [envLookup_envMerge_nil h k, hk]
  | none =>
    have hc : (keysOf kvs).contains k = false := (envLookup_eq_none_iff kvs k).mp hk
    have hm : k ∉ keysOf kvs := by
      rw [contains_eq_decide_mem] at hc
      simpa using hc
    rw [envLookup_filter_true (fun w => by simp [keyAbsent, hm]) e]
    cases hx : envLookup e k with
    | some w => rfl
    | none => simp [envLookup_envMerge_nil h k, hk]

/-! ## List-union lemmas -/

theorem listUnion_nil (b : List String) : listUnion b [] = b := rfl

theorem listUnion_cons (b : List String) (x : String) (xs : List String) :
    listUnion b (x :: xs) = listUnion (if x ∈ b then b else b ++ [x]) xs := rfl

theorem mem_listUnion_left {b xs : List String} {a : String} (h : a ∈ b) :
    a ∈ listUnion b xs := by
  induction xs generalizing b with
  | nil => exact h
  | cons x xs ih =>
    rw [listUnion_cons]
    apply ih
    by_cases hx : x ∈ b <;> simp [hx, h]

theorem mem_listUnion_right {b xs : List String} {a : String} (h : a ∈ xs) :
    a ∈ listUnion b xs := by
  induction xs generalizing b with
  | nil => cases h
  | cons x xs ih =>
    rw [listUnion_cons]
    rcases List.mem_cons.mp h with rfl | h'
    · apply mem_listUnion_left
      by_cases hx : a ∈ b <;> simp [hx]
    · exact ih h'

theorem listUnion_eq_self {b xs : List String} (h : ∀ a ∈ xs, a ∈ b) :
    listUnion b xs = b := by
  induction xs with
  | nil => rfl
  | cons x xs ih =>
    rw [listUnion_cons, if_pos (h x (List.mem_cons_self x xs))]
    exact ih (fun a ha => h a (List.mem_cons_of_mem x ha))

theorem listUnion_idem (b xs : List String) :
    listUnion (listUnion b xs) xs = listUnion b xs :=
  listUnion_eq_self (fun _ ha => mem_listUnion_right ha)

theorem listUnion_spec (b xs : List String) :
    ∃ l, listUnion b xs = b ++ l ∧ (∀ a ∈ l, a ∈ xs ∧ a ∉ b) ∧
      (∀ a ∈ xs, a ∈ b ++ l) := by
  induction xs generalizing b with
  | nil => exact ⟨[], by simp [listUnion_nil], by simp, by simp⟩
  | cons x xs ih =>
    rw [listUnion_cons]
    by_cases hx : x ∈ b
    · rw [if_pos hx]
      obtain ⟨l, h1, h2, h3⟩ := ih b
      refine ⟨l, h1, fun a ha => ⟨List.mem_cons_of_mem x (h2 a ha).1, (h2 a ha).2⟩, ?_⟩
      intro a ha
      rcases List.mem_cons.mp ha with rfl | ha'
      · exact List.mem_append_left l hx
      · exact h3 a ha'
    · rw [if_neg hx]
      obtain ⟨l, h1, h2, h3⟩ := ih (b ++ [x])
      refine ⟨x :: l, ?_, ?_, ?_⟩
      · rw [h1, List.append_assoc]
        rfl
      · intro a ha
        rcases List.mem_cons.mp ha with rfl | ha'
        · exact ⟨List.mem_cons_self a xs, hx⟩
        · obtain ⟨haxs, hab⟩ := h2 a ha'
          exact ⟨List.mem_cons_of_mem x haxs, fun hb => hab (List.mem_append_left _ hb)⟩
      · intro a ha
        rcases List.mem_cons.mp ha with rfl | ha'
        · simp
        · have := h3 a ha'
          simp [List.mem_append] at this ⊢
          tauto

theorem scalar_override_idem (a b : String) :
    (if a ≠ "" then a else (if a ≠ "" then a else b)) = (if a ≠ "" then a else b) := by
  by_cases h : a = "" <;> simp [h]

/-! ## Merge claims (C5, C6, C7) -/

/-- Claim C5: merging the same override twice yields the same configuration
as merging it once — `applyConfigOverrides` is idempotent. -/
theorem claim5_merge_idempotent (c o : Configuration) :
    applyConfigOverrides (applyConfigOverrides c o) o = applyConfigOverrides c o := by
  have h1 := envMerge_idem c.environment o.environment
  have h2 := listUnion_idem c.gamescope.args o.gamescope.args
  have h3 := listUnion_idem c.umu.args o.umu.args
  have h4 := listUnion_idem c.preScripts o.preScripts
  have h5 := listUnion_idem c.postScripts o.postScripts
  have h6 := scalar_override_idem o.umu.proton c.umu.proton
  have h7 := scalar_override_idem o.umu.gameId c.umu.gameId
  have h8 := scalar_override_idem o.umu.store c.umu.store
  simp [applyConfigOverrides, h1, h2, h3, h4, h5, h6, h7, h8]
  exact ⟨fun hp => (if_neg hp).symm, fun hg => (if_neg hg).symm, fun hs => (if_neg hs).symm⟩

/-- Claim C6: each merged list field keeps the base list as an ordered
prefix and appends after it only override elements absent from the base
list; every override element ends up in the merged list. -/
theorem claim6_list_union_shape (c o : Configuration) :
    (∃ l, (applyConfigOverrides c o).gamescope.args = c.gamescope.args ++ l ∧
       (∀ a ∈ l, a ∈ o.gamescope.args ∧ a ∉ c.gamescope.args) ∧
       (∀ a ∈ o.gamescope.args, a ∈ c.gamescope.args ++ l)) ∧
    (∃ l, (applyConfigOverrides c o).umu.args = c.umu.args ++ l ∧
       (∀ a ∈ l, a ∈ o.umu.args ∧ a ∉ c.umu.args) ∧
       (∀ a ∈ o.umu.args, a ∈ c.umu.args ++ l)) ∧
    (∃ l, (applyConfigOverrides c o).preScripts = c.preScripts ++ l ∧
       (∀ a ∈ l, a ∈ o.preScripts ∧ a ∉ c.preScripts) ∧
       (∀ a ∈ o.preScripts, a ∈ c.preScripts ++ l)) ∧
    (∃ l, (applyConfigOverrides c o).postScripts = c.postScripts ++ l ∧
       (∀ a ∈ l, a ∈ o.postScripts ∧ a ∉ c.postScripts) ∧
       (∀ a ∈ o.postScripts, a ∈ c.postScripts ++ l)) :=
  ⟨listUnion_spec c.gamescope.args o.gamescope.args,
   listUnion_spec c.umu.args o.umu.args,
   listUnion_spec c.preScripts o.preScripts,
   listUnion_spec c.postScripts o.postScripts⟩

/-- Claim C7: override booleans always win; override scalar strings win
exactly when non-empty; environment entries merge key-by-key with the
override winning on key conflicts. -/
theorem claim7_override_rules (c o : Configuration)
    (h : (keysOf o.environment).Nodup) :
    ((applyConfigOverrides c o).gamemode.enabled = o.gamemode.enabled ∧
     (applyConfigOverrides c o).mangohud.enabled = o.mangohud.enabled ∧
     (applyConfigOverrides c o).gamescope.enabled = o.gamescope.enabled ∧
     (applyConfigOverrides c o).gamescope.hdr = o.gamescope.hdr ∧
     (applyConfigOverrides c o).eosOverlay.enabled = o.eosOverlay.enabled ∧
     (applyConfigOverrides c o).umu.enabled = o.umu.enabled ∧
     (applyConfigOverrides c o).wine.alsa = o.wine.alsa) ∧
    ((applyConfigOverrides c o).umu.proton =
      if o.umu.proton ≠ "" then o.umu.proton else c.umu.proton) ∧
    ((applyConfigOverrides c o).umu.store =
      if o.umu.store ≠ "" then o.umu.store else c.umu.store) ∧
    ((applyConfigOverrides c o).umu.gameId =
      if o.umu.gameId ≠ "" then o.umu.gameId else c.umu.gameId) ∧
    (∀ k, envLookup (applyConfigOverrides c o).environment k =
      match envLookup o.environment k with
      | some v => some v
      | none => envLookup c.environment k) :=
  ⟨⟨rfl, rfl, rfl, rfl, rfl, rfl, rfl⟩, rfl, rfl, rfl,
    fun k => envLookup_envMerge c.environment o.environment k h⟩

/-- Witness for C7 at concrete configurations: the override's entry for `A`
wins, the base's entry for `B` survives. -/
theorem claim7_witness :
    (keysOf mergeOverrideConfig.environment).Nodup ∧
    envLookup (applyConfigOverrides mergeBaseConfig mergeOverrideConfig).environment "A" =
      some "ov" ∧
    envLookup (applyConfigOverrides mergeBaseConfig mergeOverrideConfig).environment "B" =
      some "base" := by
  have h := claim7_override_rules mergeBaseConfig mergeOverrideConfig (by decide)
  exact ⟨by decide, h.2.2.2.2 "A", h.2.2.2.2 "B"⟩

/-! ## umu stage claims (C2, C9) -/

theorem umuEnv1_gameid (c : Configuration) :
    envLookup (umuEnv1 c) "GAMEID" =
      match envLookup c.props "id" with
      | some id => if id ≠ "" then some id else envLookup c.environment "GAMEID"
      | none => envLookup c.environment "GAMEID" := by
  cases hid : envLookup c.props "id" with
  | none => simp only [umuEnv1, hid]
  | some id =>
    simp only [umuEnv1, hid]
    by_cases h : id ≠ ""
    · rw [if_pos h, if_pos h, envLookup_envInsert_self]
    · rw [if_neg h, if_neg h]

theorem umuEnv2_gameid (c : Configuration) (name : String) :
    envLookup (umuEnv2 c name) "GAMEID" = some (gameIdFromProps c name) := by
  have h1 := umuEnv1_gameid c
  simp only [umuEnv2, gameIdFromProps, gameIdFallback, h1]
  cases hid : envLookup c.props "id" with
  | none =>
    simp only []
    cases hg : envLookup c.environment "GAMEID" with
    | none => simp only [envLookup_envInsert_self]
    | some g =>
      by_cases hge : g = ""
      · simp [hge, envLookup_envInsert_self]
      · simp only [if_neg hge, h1, hid, hg]
  | some id =>
    by_cases h : id ≠ ""
    · simp only [if_pos h]
      have hne : ¬ id = "" := h
      simp only [if_neg hne, h1, hid, if_pos h]
    · simp only [if_neg h]
      cases hg : envLookup c.environment "GAMEID" with
      | none => simp only [envLookup_envInsert_self]
      | some g =>
        by_cases hge : g = ""
        · simp [hge, envLookup_envInsert_self]
        · simp only [if_neg hge, h1, hid, if_neg h, hg]

theorem umuEnv_gameid (c : Configuration) (name base : String) :
    envLookup (umuEnv c name base) "GAMEID" = some (expectedGameId c name) := by
  unfold umuEnv expectedGameId
  rw [envLookup_envInsert_ne _ "STORE" _ "GAMEID" (by decide)]
  rw [envLookup_envInsert_ne _ "PROTONPATH" _ "GAMEID" (by decide)]
  by_cases hg : c.umu.gameId ≠ ""
  · rw [if_pos hg, if_pos hg, envLookup_envInsert_self]
  · rw [if_neg hg, if_neg hg]
    rw [envLookup_envInsert_ne _ "WINEPREFIX" _ "GAMEID" (by decide)]
    exact umuEnv2_gameid c name

/-- Amended claim C2: when the umu stage applies, the GAMEID injected for
the child is decided with this precedence: the configured game-id override
if non-empty (it is written last in the source), otherwise the id runtime
property if present and non-empty, otherwise a pre-existing non-empty
GAMEID environment entry, otherwise the resolved name. -/
theorem claim2_gameid_precedence (cmd0 : List String) (c : Configuration)
    (base bin name : String) (hEnabled : c.umu.enabled = true)
    (hname : envLookup c.props "name" = some name) :
    umuGameIdOf (enrichCommandWithUmu cmd0 c base (some bin) false true) =
      some (some (expectedGameId c name)) := by
  simp only [enrichCommandWithUmu, hEnabled, hname]
  rw [if_pos (⟨trivial, trivial⟩ : True ∧ True)]
  rw [if_neg (by decide : ¬ true = false)]
  simp only [umuGameIdOf]
  rw [umuEnv_gameid c name base]

/-- Witness for C2: the umu stage applies with resolved name `n`; the
injected GAMEID follows the corrected precedence. -/
theorem claim2_witness :
    (umuPrecedenceConfig.umu.enabled = true) ∧
    (envLookup umuPrecedenceConfig.props "name" = some "n") ∧
    umuGameIdOf (enrichCommandWithUmu [] umuPrecedenceConfig "base" (some "umu") false true) =
      some (some (expectedGameId umuPrecedenceConfig "n")) :=
  ⟨rfl, by decide,
    claim2_gameid_precedence [] umuPrecedenceConfig "base" "umu" "n" rfl (by decide)⟩

/-- Counterexample to C2 as stated: with an id property `"a"` present and
non-empty and a configured game-id override `"b"`, the code injects
GAMEID `"b"` (the override wins), while the claimed precedence would pick
the id property `"a"`. -/
theorem claim2_counterexample :
    umuGameIdOf (enrichCommandWithUmu [] umuPrecedenceConfig "base" (some "umu") false true) =
      some (some "b") ∧
    umuGameIdOf (enrichCommandWithUmu [] umuPrecedenceConfig "base" (some "umu") false true) ≠
      some (some "a") := by
  constructor
  · decide
  · decide

/-- Amended claim C9: when the umu stage applies, it ends in the fatal
missing-name error precisely when the name property is absent — a present
but empty name is accepted. -/
theorem claim9_name_presence (cmd0 : List String) (c : Configuration)
    (base bin : String) (protonValid : Bool) (hEnabled : c.umu.enabled = true) :
    enrichCommandWithUmu cmd0 c base (some bin) false protonValid =
        Except.error nameErrMsg ↔
      envLookup c.props "name" = none := by
  simp only [enrichCommandWithUmu, hEnabled]
  rw [if_pos (⟨trivial, trivial⟩ : True ∧ True)]
  cases hname : envLookup c.props "name" with
  | none => simp
  | some name =>
    simp only []
    by_cases hp : protonValid = false
    · rw [if_pos hp]
      constructor
      · intro h
        have hmsg : protonErrMsg = nameErrMsg := by injection h
        exact absurd hmsg (by decide)
      · intro h; cases h
    · rw [if_neg hp]
      constructor
      · intro h; cases h
      · intro h; cases h

/-- Witness for C9: with no name property at all, the stage is fatal. -/
theorem claim9_witness :
    (umuNoNameConfig.umu.enabled = true) ∧
    enrichCommandWithUmu [] umuNoNameConfig "base" (some "umu") false true =
      Except.error nameErrMsg :=
  ⟨rfl, (claim9_name_presence [] umuNoNameConfig "base" "umu" true rfl).mpr rfl⟩

/-- Counterexample to C9 as stated: a present but empty name property is
not a non-empty resolved name, yet the stage completes without a fatal
error (it returns a command rather than an error). -/
theorem claim9_counterexample :
    envLookup umuEmptyNameConfig.props "name" = some "" ∧
    umuGameIdOf (enrichCommandWithUmu [] umuEmptyNameConfig "base" (some "umu") false true) ≠
      none := by
  constructor
  · decide
  · decide

/-! ## Migration claims (C8) -/

theorem lookupEntry_copyEntries_file :
    ∀ (es : List (String × FsEntry)) (n : String) (p : Nat) (cts : List Nat),
      lookupEntry es n = some (FsEntry.file p cts) →
      lookupEntry (copyEntries es) n = some (FsEntry.file p cts) := by
  intro es
  induction es with
  | nil => intro n p cts h; simp [lookupEntry] at h
  | cons e rest ih =>
    intro n p cts h
    obtain ⟨n0, ent⟩ := e
    cases ent with
    | file p0 c0 =>
      by_cases hn : n0 = n
      · simp only [lookupEntry, if_pos hn] at h
        simp only [copyEntries, lookupEntry, if_pos hn]
        exact h
      · simp only [lookupEntry, if_neg hn] at h
        simp only [copyEntries, lookupEntry, if_neg hn]
        exact ih n p cts h
    | symlink t =>
      by_cases hn : n0 = n
      · simp [lookupEntry, if_pos hn] at h
      · simp only [lookupEntry, if_neg hn] at h
        simp only [copyEntries]
        exact ih n p cts h
    | dir p0 es0 =>
      by_cases hn : n0 = n
      · simp [lookupEntry, if_pos hn] at h
      · simp only [lookupEntry, if_neg hn] at h
        simp only [copyEntries, lookupEntry, if_neg hn]
        exact ih n p cts h

theorem lookupEntry_copyEntries_dir :
    ∀ (es : List (String × FsEntry)) (n : String) (p : Nat)
      (es2 : List (String × FsEntry)),
      lookupEntry es n = some (FsEntry.dir p es2) →
      lookupEntry (copyEntries es) n = some (FsEntry.dir p (copyEntries es2)) := by
  intro es
  induction es with
  | nil => intro n p es2 h; simp [lookupEntry] at h
  | cons e rest ih =>
    intro n p es2 h
    obtain ⟨n0, ent⟩ := e
    cases ent with
    | file p0 c0 =>
      by_cases hn : n0 = n
      · simp [lookupEntry, if_pos hn] at h
      · simp only [lookupEntry, if_neg hn] at h
        simp only [copyEntries, lookupEntry, if_neg hn]
        exact ih n p es2 h
    | symlink t =>
      by_cases hn : n0 = n
      · simp [lookupEntry, if_pos hn] at h
      · simp only [lookupEntry, if_neg hn] at h
        simp only [copyEntries]
        exact ih n p es2 h
    | dir p0 es0 =>
      by_cases hn : n0 = n
      · simp only [lookupEntry, if_pos hn] at h
        have h1 : p0 = p ∧ es0 = es2 := by
          injection h with h2
          injection h2 with h3 h4
          exact ⟨h3, h4⟩
        obtain ⟨rfl, rfl⟩ := h1
        simp only [copyEntries, lookupEntry, if_pos hn]
      · simp only [lookupEntry, if_neg hn] at h
        simp only [copyEntries, lookupEntry, if_neg hn]
        exact ih n p es2 h

theorem findFile_copyEntries :
    ∀ (path : List String) (es : List (String × FsEntry)) (p : Nat) (cts : List Nat),
      findFile es path = some (p, cts) →
      findFile (copyEntries es) path = some (p, cts) := by
  intro path
  induction path with
  | nil => intro es p cts h; simp [findFile] at h
  | cons n rest ih =>
    intro es p cts h
    cases rest with
    | nil =>
      simp only [findFile] at h ⊢
      cases hl : lookupEntry es n with
      | none => rw [hl] at h; simp at h
      | some e =>
        rw [hl] at h
        cases e with
        | file p0 c0 =>
          simp only [] at h
          have h1 : p0 = p ∧ c0 = cts := by
            injection h with h2
            injection h2 with h3 h4
            exact ⟨h3, h4⟩
          obtain ⟨rfl, rfl⟩ := h1
          rw [lookupEntry_copyEntries_file es n p0 c0 hl]
        | symlink t => simp at h
        | dir p0 es0 => simp at h
    | cons n2 rest2 =>
      simp only [findFile] at h ⊢
      cases hl : lookupEntry es n with
      | none => rw [hl] at h; simp at h
      | some e =>
        rw [hl] at h
        cases e with
        | file p0 c0 => simp at h
        | symlink t => simp at h
        | dir p0 es0 =>
          simp only [] at h
          rw [lookupEntry_copyEntries_dir es n p0 es0 hl]
          exact ih es0 p cts h

/-- Claim C8: when the legacy compatibility-data path holds a directory and
the new per-game path is absent, the migration leaves a symlink to the new
path at the legacy location (no legacy directory remains) and the new
location holds the copied tree; every regular (non-symlink) file of the
legacy tree is present in the copied tree at the same relative path with
the same permission bits and content. -/
theorem claim8_migration (oldE newE : Option FsEntry) (perm : Nat)
    (es : List (String × FsEntry)) (newPath : String)
    (h1 : oldE = some (FsEntry.dir perm es)) (h2 : newE = none) :
    configureNewSteamCompatData oldE newE newPath =
      (some (FsEntry.symlink newPath), some (FsEntry.dir perm (copyEntries es))) ∧
    (∀ path p cts, findFile es path = some (p, cts) →
      findFile (copyEntries es) path = some (p, cts)) := by
  subst h1 h2
  exact ⟨rfl, fun path p cts h => findFile_copyEntries path es p cts h⟩

/-- Witness for C8 on a small concrete legacy tree with a regular file, a
nested symlink and a top-level file. -/
theorem claim8_witness :
    configureNewSteamCompatData (some (FsEntry.dir 493 demoCompatTree)) none "/new" =
      (some (FsEntry.symlink "/new"), some (FsEntry.dir 493 (copyEntries demoCompatTree))) ∧
    findFile (copyEntries demoCompatTree) ["pfx", "user.reg"] = some (420, [1, 2, 3]) := by
  have h := claim8_migration (some (FsEntry.dir 493 demoCompatTree)) none 493
    demoCompatTree "/new" rfl rfl
  exact ⟨h.1, h.2 ["pfx", "user.reg"] 420 [1, 2, 3] (by decide)⟩

/-! ## Flag-parsing index claim (C4) -/

theorem argvLoop_cons_flag (c : Configuration) (a : String) (rest : List String)
    (i : Nat) (hi : ¬ i = 0) (h : isFlagArg a = true) :
    ∃ c', argvLoop c (a :: rest) i = argvLoop c' rest (i + 1) := by
  by_cases h1 : a.startsWith "--"
  · exact ⟨parseDoubleDashParam c (a.data.drop 2), by simp [argvLoop, hi, h1]⟩
  · by_cases h2 : a.startsWith "-!"
    · exact ⟨parseBooleanDashParam c (a.data.drop 2) false, by simp [argvLoop, hi, h1, h2]⟩
    · have h3 : a.startsWith "-" = true := by
        simp [isFlagArg, h1, h2] at h
        exact h
      exact ⟨parseBooleanDashParam c (a.data.drop 1) true,
        by simp [argvLoop, hi, h1, h2, h3]⟩

theorem argvLoop_cons_nonflag (c : Configuration) (a : String) (rest : List String)
    (i : Nat) (hi : ¬ i = 0) (h : isFlagArg a = false) :
    argvLoop c (a :: rest) i = Except.ok (i, c) := by
  have hor := h
  simp [isFlagArg] at hor
  obtain ⟨⟨h1, h2⟩, h3⟩ := hor
  simp [argvLoop, hi, h1, h2, h3]

theorem argvLoop_spec (rest : List String) :
    ∀ (c : Configuration) (i : Nat), 1 ≤ i →
      (match argvLoop c rest i with
       | Except.ok (r, _) =>
         i ≤ r ∧ r - i < rest.length ∧ isFlagArg (rest.getD (r - i) "") = false ∧
           ∀ j, j < r - i → isFlagArg (rest.getD j "") = true
       | Except.error _ => ∀ j, j < rest.length → isFlagArg (rest.getD j "") = true) := by
  induction rest with
  | nil =>
    intro c i hi
    simp [argvLoop]
  | cons a rest ih =>
    intro c i hi
    have hi0 : ¬ i = 0 := by omega
    cases hfa : isFlagArg a with
    | true =>
      obtain ⟨c', hc⟩ := argvLoop_cons_flag c a rest i hi0 hfa
      rw [hc]
      have hspec := ih c' (i + 1) (by omega)
      cases hres : argvLoop c' rest (i + 1) with
      | ok p =>
        obtain ⟨r, c''⟩ := p
        rw [hres] at hspec
        have hok : (i + 1 ≤ r ∧ r - (i + 1) < rest.length ∧
            isFlagArg (rest.getD (r - (i + 1)) "") = false ∧
            ∀ j, j < r - (i + 1) → isFlagArg (rest.getD j "") = true) := hspec
        obtain ⟨hr1, hr2, hr3, hr4⟩ := hok
        have hru : r - i = (r - (i + 1)) + 1 := by omega
        refine ⟨by omega, by simp [List.length_cons]; omega, ?_, ?_⟩
        · rw [hru]
          simpa using hr3
        · intro j hj
          cases j with
          | zero => simpa using hfa
          | succ j' =>
            rw [hru] at hj
            have := hr4 j' (by omega)
            simpa using this
      | error msg =>
        rw [hres] at hspec
        have herr : ∀ j, j < rest.length → isFlagArg (rest.getD j "") = true := hspec
        intro j hj
        cases j with
        | zero => simpa using hfa
        | succ j' =>
          have hj' : j' < rest.length := by
            simp [List.length_cons] at hj
            omega
          have := herr j' hj'
          simpa using this
    | false =>
      rw [argvLoop_cons_nonflag c a rest i hi0 hfa]
      refine ⟨Nat.le_refl i, by simp [Nat.sub_self, List.length_cons], ?_, ?_⟩
      · rw [Nat.sub_self]
        simpa using hfa
      · intro j hj
        rw [Nat.sub_self] at hj
        omega

/-- Claim C4: flag parsing returns, as the command-start index, the index of
the first argument after the program name that does not start with `--`,
`-!` or `-`; it returns an error exactly when no such argument exists. -/
theorem claim4_first_nonflag_index (c : Configuration) (args : List String) :
    (match enrichConfigurationWithArgvFlags c args with
     | Except.ok (r, _) =>
       1 ≤ r ∧ r < args.length ∧ isFlagArg (args.getD r "") = false ∧
         ∀ j, 1 ≤ j → j < r → isFlagArg (args.getD j "") = true
     | Except.error _ => ∀ j, 1 ≤ j → j < args.length → isFlagArg (args.getD j "") = true) := by
  cases args with
  | nil =>
    simp [enrichConfigurationWithArgvFlags, argvLoop]
  | cons a0 rest =>
    have h0 : enrichConfigurationWithArgvFlags c (a0 :: rest) = argvLoop c rest 1 := by
      simp [enrichConfigurationWithArgvFlags, argvLoop]
    rw [h0]
    have hspec := argvLoop_spec rest c 1 (Nat.le_refl 1)
    cases hres : argvLoop c rest 1 with
    | ok p =>
      obtain ⟨r, c'⟩ := p
      rw [hres] at hspec
      have hok : (1 ≤ r ∧ r - 1 < rest.length ∧
          isFlagArg (rest.getD (r - 1) "") = false ∧
          ∀ j, j < r - 1 → isFlagArg (rest.getD j "") = true) := hspec
      obtain ⟨h1, h2, h3, h4⟩ := hok
      have hr : r = (r - 1) + 1 := by omega
      refine ⟨h1, by simp [List.length_cons]; omega, ?_, ?_⟩
      · rw [hr]
        simpa using h3
      · intro j hj1 hjr
        have hj : j = (j - 1) + 1 := by omega
        rw [hj]
        simp only [List.getD_cons_succ]
        exact h4 (j - 1) (by omega)
    | error m =>
      rw [hres] at hspec
      have herr : ∀ j, j < rest.length → isFlagArg (rest.getD j "") = true := hspec
      intro j hj1 hj2
      have hj : j = (j - 1) + 1 := by omega
      rw [hj]
      simp only [List.getD_cons_succ]
      exact herr (j - 1) (by simp [List.length_cons] at hj2; omega)
